import Mathlib

/-!
Shallow embedding of the finance-dashboard transform pipeline.

Sources embedded:
- app.py: fetch_history, add_sma, normalize, clean_tickers, the main
  fetch flow, and the returns summary lambda.
- src/finance.py: add_indicators.

Modelling conventions:
- a pandas numeric cell is `Option ℚ`; `none` models NaN (missing).
- scalar float arithmetic in the returns lambda is modelled by `PFloat`,
  rationals extended with signed infinities and NaN, mirroring IEEE
  behaviour of the operations the lambda uses (division, subtraction of a
  constant, multiplication by a positive constant).
- a DataFrame in app.py is a `Frame`: a list of OHLCV rows (the columns
  produced by the fetch) plus the columns later assigned by transforms.
- a DataFrame in finance.py is a `FinFrame`: a plain list of named columns,
  since add_indicators is written against arbitrary column sets.
- Python strings are worked with as `List Char` for the ticker cleaning.
-/

namespace FinDash

/-- One OHLCV row as produced by the market-data provider (before the
Ticker column is attached by fetch_history). -/
structure RawRow where
  date : Int
  openV : Option ℚ
  high : Option ℚ
  low : Option ℚ
  close : Option ℚ
  volume : Option ℚ
deriving DecidableEq, Repr

/-- One row of the concatenated multi-symbol table in app.py: an OHLCV row
plus the Ticker column attached by fetch_history. -/
structure Row where
  ticker : String
  date : Int
  openV : Option ℚ
  high : Option ℚ
  low : Option ℚ
  close : Option ℚ
  volume : Option ℚ
deriving DecidableEq, Repr

instance : Inhabited Row := ⟨⟨"", 0, none, none, none, none, none⟩⟩

/-- Scalar Python float value: a rational, a signed infinity, or NaN.
Used to model the unguarded float arithmetic of the returns lambda. -/
inductive PFloat where
  | fin : ℚ → PFloat
  | posInf : PFloat
  | negInf : PFloat
  | nan : PFloat
deriving DecidableEq, Repr

/-- Lift a cell (possibly missing) to a scalar float: NaN for a missing
value, as pandas does when a NaN cell is read with iloc. -/
def PFloat.ofCell : Option ℚ → PFloat
  | none => .nan
  | some q => .fin q

/-- IEEE-style division on PFloat: finite/0 gives a signed infinity
(NaN for 0/0), NaN propagates, finite/inf gives 0, inf/inf gives NaN. -/
def PFloat.div : PFloat → PFloat → PFloat
  | .nan, _ => .nan
  | _, .nan => .nan
  | .fin a, .fin b =>
      if b = 0 then (if a = 0 then .nan else if 0 < a then .posInf else .negInf)
      else .fin (a / b)
  | .fin _, .posInf => .fin 0
  | .fin _, .negInf => .fin 0
  | .posInf, .fin b => if b < 0 then .negInf else .posInf
  | .negInf, .fin b => if b < 0 then .posInf else .negInf
  | .posInf, .posInf => .nan
  | .posInf, .negInf => .nan
  | .negInf, .posInf => .nan
  | .negInf, .negInf => .nan

/-- IEEE-style subtraction of the finite constant 1. -/
def PFloat.subOne : PFloat → PFloat
  | .fin a => .fin (a - 1)
  | .posInf => .posInf
  | .negInf => .negInf
  | .nan => .nan

/-- IEEE-style multiplication by the positive finite constant 100. -/
def PFloat.mulHundred : PFloat → PFloat
  | .fin a => .fin (a * 100)
  | .posInf => .posInf
  | .negInf => .negInf
  | .nan => .nan

/-! ### Rolling mean (pandas Series.rolling(w).mean with default min_periods) -/

/-- The trailing window of width w ending at index i: elements at indices
max 0 (i+1-w) through i. -/
def windowAt (s : List (Option ℚ)) (w : ℕ) (i : ℕ) : List (Option ℚ) :=
  (s.take (i + 1)).drop (i + 1 - w)

/-- Sum a window if every cell is present. -/
def sumDefined : List (Option ℚ) → Option ℚ
  | [] => some 0
  | none :: _ => none
  | some q :: rest => (sumDefined rest).map (q + ·)

/-- Rolling-mean entry at index i for window w: defined only when the
window is full (i+1 ≥ w) and every cell in it is present, exactly the
default min_periods = window behaviour of pandas. -/
def rollingMeanAt (s : List (Option ℚ)) (w : ℕ) (i : ℕ) : Option ℚ :=
  if i + 1 < w then none
  else (sumDefined (windowAt s w i)).map (· / (w : ℚ))

/-- Series.rolling(w).mean() over a whole column. -/
def rollingMean (w : ℕ) (s : List (Option ℚ)) : List (Option ℚ) :=
  (List.range s.length).map (rollingMeanAt s w)

/-! ### Grouped transforms (df.groupby("Ticker")["Close"].transform(f)) -/

/-- The Close sub-series of one ticker, in row order. -/
def groupCloses (rows : List Row) (t : String) : List (Option ℚ) :=
  (rows.filter (fun r => r.ticker = t)).map (fun r => r.close)

/-- Position of row i inside the group of its own ticker: the number of
earlier rows with the same ticker. -/
def posInGroup (rows : List Row) (i : ℕ) : ℕ :=
  ((rows.take i).filter (fun r => r.ticker = (rows.getD i default).ticker)).length

/-- groupby("Ticker")["Close"].transform f: row i receives the value f
produced for its group at the position of row i within that group. -/
def groupedTransform (f : List (Option ℚ) → List (Option ℚ)) (rows : List Row) :
    List (Option ℚ) :=
  (List.range rows.length).map
    (fun i => (f (groupCloses rows (rows.getD i default).ticker)).getD (posInGroup rows i) none)

/-! ### Frames: an app.py DataFrame is OHLCV base rows plus assigned columns -/

/-- A DataFrame of the app.py flow: the fetched rows plus any columns the
transforms assigned afterwards (each of length rows.length). -/
structure Frame where
  base : List Row
  extra : List (String × List (Option ℚ))
deriving DecidableEq, Repr

/-- Pandas column assignment on a named column list: replaces an existing
column of that name in place, otherwise appends a new one. -/
def colSet (cols : List (String × List (Option ℚ))) (name : String)
    (col : List (Option ℚ)) : List (String × List (Option ℚ)) :=
  if name ∈ cols.map Prod.fst then
    cols.map (fun p => if p.1 = name then (name, col) else p)
  else
    cols ++ [(name, col)]

/-- Pandas column lookup on a named column list. -/
def colGet (cols : List (String × List (Option ℚ))) (name : String) :
    Option (List (Option ℚ)) :=
  (cols.find? (fun p => p.1 = name)).map Prod.snd

/-- Column assignment out[name] = col on a frame. -/
def Frame.setCol (df : Frame) (name : String) (col : List (Option ℚ)) : Frame :=
  { df with extra := colSet df.extra name col }

/-- Look up an assigned column by name. -/
def Frame.getCol (df : Frame) (name : String) : Option (List (Option ℚ)) :=
  colGet df.extra name

/-- The SMA column for one window: the grouped rolling mean of Close. -/
def smaColumn (rows : List Row) (w : ℕ) : List (Option ℚ) :=
  groupedTransform (rollingMean w) rows

/-- add_sma from app.py: copies the frame and assigns one SMA_w column per
window, each computed by a per-ticker grouped rolling mean of Close. -/
def add_sma (df : Frame) (windows : List ℕ) : Frame :=
  windows.foldl (fun out w => out.setCol ("SMA_" ++ toString w) (smaColumn out.base w)) df

/-- The per-group body of normalize: first = s.iloc[0] if nonempty else
None; return s / first * 100 if first is truthy, else None (broadcast to
the group as missing values). A NaN first element is truthy in Python, and
dividing by NaN makes every result NaN. -/
def norm (s : List (Option ℚ)) : List (Option ℚ) :=
  match s with
  | [] => []
  | first :: _ =>
    match first with
    | none => s.map (fun _ => none)
    | some q =>
      if q = 0 then s.map (fun _ => none)
      else s.map (fun c => c.map (fun x => x / q * 100))

/-- normalize from app.py: copies the frame and assigns the CloseNorm
column, the grouped application of norm to Close. -/
def normalize (df : Frame) : Frame :=
  df.setCol "CloseNorm" (groupedTransform norm df.base)

/-! ### finance.py frames and add_indicators -/

/-- A DataFrame of finance.py: an arbitrary set of named columns. -/
structure FinFrame where
  cols : List (String × List (Option ℚ))
deriving DecidableEq, Repr

/-- Whether a column of this name exists ("Close" in out.columns). -/
def FinFrame.hasCol (df : FinFrame) (name : String) : Bool :=
  decide (name ∈ df.cols.map Prod.fst)

/-- Column lookup df[name]. -/
def FinFrame.getCol (df : FinFrame) (name : String) : Option (List (Option ℚ)) :=
  colGet df.cols name

/-- Column assignment df[name] = col: replace an existing column of that
name, otherwise append a new one. -/
def FinFrame.setCol (df : FinFrame) (name : String) (col : List (Option ℚ)) : FinFrame :=
  ⟨colSet df.cols name col⟩

/-- add_indicators from finance.py: copy the frame; when a Close column is
present, assign MA_short then MA_long as rolling means of Close; otherwise
return the copy untouched. The second assignment reads Close from the
already-updated frame, as the Python does. -/
def add_indicators (df : FinFrame) (maShort maLong : ℕ) : FinFrame :=
  if df.hasCol "Close" then
    let out1 := df.setCol ("MA_" ++ toString maShort)
      (rollingMean maShort ((df.getCol "Close").getD []))
    out1.setCol ("MA_" ++ toString maLong)
      (rollingMean maLong ((out1.getCol "Close").getD []))
  else df

/-! ### clean_tickers (Python string pipeline over List Char) -/

/-- Whitespace for Python str.strip(): space, tab, newline, carriage
return, vertical tab, form feed. -/
def pyIsSpace (c : Char) : Bool :=
  c = ' ' || c = '\t' || c = '\n' || c = '\r' || c = '\x0b' || c = '\x0c'

/-- s.replace(" ", ","): every space becomes a comma. -/
def pyReplaceSpace (s : List Char) : List Char :=
  s.map (fun c => if c = ' ' then ',' else c)

/-- s.split(","): split at every comma, keeping empty fragments, so the
empty string yields one empty fragment. -/
def pySplitComma : List Char → List (List Char)
  | [] => [[]]
  | c :: rest =>
    match pySplitComma rest with
    | [] => [[]]
    | h :: t => if c = ',' then [] :: h :: t else (c :: h) :: t

/-- t.strip(): drop leading and trailing whitespace. -/
def pyStrip (t : List Char) : List Char :=
  ((t.dropWhile pyIsSpace).reverse.dropWhile pyIsSpace).reverse

/-- t.upper() on ASCII tickers. -/
def pyUpper (t : List Char) : List Char :=
  t.map Char.toUpper

/-- clean_tickers from app.py on the character list: the comprehension
keeps fragments whose strip is nonempty, mapped to strip().upper(), and
the result is truncated to the first 8. -/
def cleanCore (s : List Char) : List (List Char) :=
  (((pySplitComma (pyReplaceSpace s)).filter
      (fun t => !(pyStrip t).isEmpty)).map
    (fun t => pyUpper (pyStrip t))).take 8

/-- clean_tickers from app.py at the String interface. -/
def clean_tickers (s : String) : List String :=
  (cleanCore s.data).map (fun l => String.mk l)

/-- Generic split at every character satisfying p, keeping empty
fragments. -/
def splitAny (p : Char → Bool) : List Char → List (List Char)
  | [] => [[]]
  | c :: rest =>
    match splitAny p rest with
    | [] => [[]]
    | h :: t => if p c then [] :: h :: t else (c :: h) :: t

/-- Follows the spec words for ticker cleaning, for comparison with
cleanCore: split on commas and/or spaces, trim whitespace, normalize to
uppercase, drop empty fragments, keep the first 8 in input order. -/
def specCleanTickers (s : List Char) : List (List Char) :=
  (((((splitAny (fun c => c = ',' || c = ' ') s).map pyStrip).map pyUpper).filter
      (fun t => !t.isEmpty)).take 8)

/-! ### Returns summary (groupby("Ticker").apply of the unguarded lambda) -/

/-- Keys of df.groupby("Ticker"): the distinct tickers in sorted order. -/
def sortedTickers (rows : List Row) : List String :=
  ((rows.map (fun r => r.ticker)).dedup).insertionSort (fun a b => a ≤ b)

/-- The returns lambda applied to one nonempty group g:
(g["Close"].iloc[-1] / g["Close"].iloc[0] - 1) * 100, under float
semantics. groupby never produces an empty group; the unreachable empty
case is mapped to NaN. -/
def groupReturn (closes : List (Option ℚ)) : PFloat :=
  match closes.head?, closes.getLast? with
  | some f, some l => (((PFloat.ofCell l).div (PFloat.ofCell f)).subOne).mulHundred
  | _, _ => PFloat.nan

/-- df.groupby("Ticker").apply(lambda ...): one float per ticker, keyed in
sorted ticker order. -/
def computeReturns (rows : List Row) : List (String × PFloat) :=
  (sortedTickers rows).map (fun t => (t, groupReturn (groupCloses rows t)))

/-! ### Fetch flow (fetch_history and the main fetch loop) -/

/-- fetch_history from app.py with the market-data provider injected: a
provider call that raises is the error case of the oracle; any failure or
an empty result yields an empty table, otherwise the rows are tagged with
the Ticker column. -/
def fetch_history (provider : String → Except Unit (List RawRow))
    (ticker : String) : List Row :=
  match provider ticker with
  | .error _ => []
  | .ok rs =>
      if rs.isEmpty then []
      else rs.map (fun r => ⟨ticker, r.date, r.openV, r.high, r.low, r.close, r.volume⟩)

/-- sort_values(["Ticker", "Date"]): lexicographic by ticker then date. -/
def sortRows (rows : List Row) : List Row :=
  rows.insertionSort (fun a b =>
    a.ticker < b.ticker ∨ (a.ticker = b.ticker ∧ a.date ≤ b.date))

/-- What the main flow produces on success: the indicator table and the
report of symbols that returned no data. -/
structure Output where
  table : Frame
  missing : List String
deriving DecidableEq, Repr

/-- Models the st.number_input widget contract (min_value/max_value): a
requested value outside the configured bounds is refused by the sidebar,
before the fetch button logic runs. -/
def numberInput (minv maxv req : Int) : Except String Int :=
  if req < minv then .error "below widget minimum"
  else if maxv < req then .error "above widget maximum"
  else .ok req

/-- Main fetch flow of app.py (lines 93 to 116): clean the tickers, stop
with a warning when none remain, fetch each ticker collecting empty
results into the missing report, stop with an error when no ticker
succeeded, otherwise concatenate, sort by ticker and date, and add the
SMA columns. -/
def mainFlow (provider : String → Except Unit (List RawRow))
    (tickersRaw : String) (windows : List ℕ) : Except String Output :=
  let tickers := clean_tickers tickersRaw
  if tickers.isEmpty then .error "Enter at least one ticker"
  else
    let fetched := tickers.map (fun t => (t, fetch_history provider t))
    let missing := (fetched.filter (fun p => p.2.isEmpty)).map Prod.fst
    let dfs := (fetched.filter (fun p => !p.2.isEmpty)).map Prod.snd
    if dfs.isEmpty then .error "No valid tickers fetched"
    else
      .ok ⟨add_sma ⟨sortRows dfs.flatten, []⟩ windows, missing⟩

/-- The dashboard request: sidebar widgets validate the three SMA windows
with their configured bounds, then the fetch flow runs. -/
def dashboard (provider : String → Except Unit (List RawRow))
    (tickersRaw : String) (reqShort reqMid reqLong : Int) : Except String Output :=
  match numberInput 5 100 reqShort, numberInput 10 250 reqMid,
      numberInput 20 400 reqLong with
  | .ok ws, .ok wm, .ok wl =>
      mainFlow provider tickersRaw [ws.toNat, wm.toNat, wl.toNat]
  | .error e, _, _ => .error e
  | _, .error e, _ => .error e
  | _, _, .error e => .error e

/-- Concrete provider oracle used to evaluate the flow theorems: AAPL has
two days of data, every other symbol fails at the provider. -/
def stubProvider (t : String) : Except Unit (List RawRow) :=
  if t = "AAPL" then
    .ok [⟨0, none, none, none, some 100, none⟩,
         ⟨1, none, none, none, some 105, none⟩]
  else .error ()

/-! ## Helper lemmas -/

lemma getD_of_forall_none {l : List (Option ℚ)} (p : ℕ) (h : ∀ v ∈ l, v = none) :
    l.getD p none = none := by
  rw [List.getD_eq_getElem?_getD]
  cases hm : l[p]? with
  | none => rfl
  | some v =>
    obtain ⟨hp, hv⟩ := List.getElem?_eq_some.mp hm
    have hmem : v ∈ l := hv ▸ List.getElem_mem hp
    simp [h v hmem]

lemma map_getD_range {α : Type} {l : List α} {n : ℕ} (d : α) (hn : l.length = n) :
    (List.range n).map (fun i => l.getD i d) = l := by
  subst hn
  apply List.ext_getElem?
  intro i
  rw [List.getElem?_map]
  rcases lt_or_le i l.length with hi | hi
  · rw [List.getElem?_range hi, List.getElem?_eq_getElem hi]
    simp [List.getD_eq_getElem?_getD, List.getElem?_eq_getElem hi]
  · rw [List.getElem?_eq_none (by simpa using hi), List.getElem?_eq_none hi]
    rfl

lemma rollingMean_length (w : ℕ) (s : List (Option ℚ)) :
    (rollingMean w s).length = s.length := by
  simp [rollingMean]

lemma groupedTransform_length (f : List (Option ℚ) → List (Option ℚ)) (rows : List Row) :
    (groupedTransform f rows).length = rows.length := by
  simp [groupedTransform]

lemma smaColumn_length (rows : List Row) (w : ℕ) :
    (smaColumn rows w).length = rows.length := by
  simp [smaColumn, groupedTransform_length]

lemma groupedTransform_getD {f : List (Option ℚ) → List (Option ℚ)} {rows : List Row}
    {i : ℕ} (hi : i < rows.length) :
    (groupedTransform f rows).getD i none =
      (f (groupCloses rows (rows.getD i default).ticker)).getD (posInGroup rows i) none := by
  unfold groupedTransform
  rw [List.getD_eq_getElem?_getD, List.getElem?_map, List.getElem?_range hi]
  rfl

lemma colGet_colSet_self (cols : List (String × List (Option ℚ)))
    (name : String) (col : List (Option ℚ)) :
    colGet (colSet cols name col) name = some col := by
  unfold colGet colSet
  by_cases hc : name ∈ cols.map Prod.fst
  · rw [if_pos hc]
    have hex : ∃ p ∈ cols, p.1 = name := by
      simpa [List.mem_map, eq_comm] using hc
    clear hc
    induction cols with
    | nil => simp at hex
    | cons p rest ih =>
      rw [List.map_cons]
      by_cases hp : p.1 = name
      · rw [if_pos hp, List.find?_cons_of_pos _ (by simp)]
        rfl
      · rw [if_neg hp, List.find?_cons_of_neg _ (by simpa using hp)]
        apply ih
        rcases hex with ⟨q, hq, hqn⟩
        rcases List.mem_cons.mp hq with rfl | hq2
        · exact absurd hqn hp
        · exact ⟨q, hq2, hqn⟩
  · rw [if_neg hc, List.find?_append]
    have hnone : cols.find? (fun p => decide (p.1 = name)) = none := by
      rw [List.find?_eq_none]
      intro x hx hxn
      exact hc (List.mem_map.mpr ⟨x, hx, by simpa using hxn⟩)
    rw [hnone]
    simp

lemma colGet_colSet_other (cols : List (String × List (Option ℚ)))
    {name other : String} (col : List (Option ℚ)) (h : other ≠ name) :
    colGet (colSet cols name col) other = colGet cols other := by
  unfold colGet colSet
  by_cases hc : name ∈ cols.map Prod.fst
  · rw [if_pos hc]
    congr 1
    clear hc
    induction cols with
    | nil => rfl
    | cons p rest ih =>
      rw [List.map_cons]
      by_cases hp : p.1 = name
      · rw [if_pos hp, List.find?_cons_of_neg _ (by simpa using Ne.symm h),
          List.find?_cons_of_neg _ (by simpa [hp] using Ne.symm h)]
        exact ih
      · by_cases hpo : p.1 = other
        · rw [if_neg hp, List.find?_cons_of_pos _ (by simpa using hpo),
            List.find?_cons_of_pos _ (by simpa using hpo)]
        · rw [if_neg hp, List.find?_cons_of_neg _ (by simpa using hpo),
            List.find?_cons_of_neg _ (by simpa using hpo)]
          exact ih
  · rw [if_neg hc, List.find?_append]
    have hlast : List.find? (fun p => decide (p.1 = other)) [(name, col)] = none := by
      simp [Ne.symm h]
    rw [hlast]
    simp

lemma colSet_fresh (cols : List (String × List (Option ℚ)))
    {name : String} (col : List (Option ℚ))
    (h : name ∉ cols.map Prod.fst) :
    colSet cols name col = cols ++ [(name, col)] := by
  unfold colSet
  rw [if_neg h]

lemma filter_take_getElem (p : Row → Bool) :
    ∀ (rows : List Row) (i : ℕ), i < rows.length → p (rows.getD i default) = true →
      (rows.filter p)[((rows.take i).filter p).length]? = some (rows.getD i default)
  | [], i, hi, _ => absurd hi (by simp)
  | r :: rest, 0, _, hp => by
      rw [List.getD_cons_zero] at hp ⊢
      simp only [List.take_zero, List.filter_nil, List.length_nil]
      rw [List.filter_cons_of_pos (by simpa using hp)]
      exact List.getElem?_cons_zero
  | r :: rest, (j + 1), hj, hp => by
      have hj2 : j < rest.length := by simpa using hj
      have hgd : (r :: rest).getD (j + 1) default = rest.getD j default := rfl
      rw [hgd] at hp ⊢
      have ih := filter_take_getElem p rest j hj2 hp
      simp only [List.take_succ_cons]
      by_cases hr : p r
      · rw [List.filter_cons_of_pos hr, List.filter_cons_of_pos hr]
        simpa using ih
      · rw [List.filter_cons_of_neg hr, List.filter_cons_of_neg hr]
        exact ih

lemma norm_all_none {s : List (Option ℚ)}
    (h : s.head? = some none ∨ s.head? = some (some 0) ∨ s = []) :
    ∀ v ∈ norm s, v = none := by
  cases s with
  | nil => simp [norm]
  | cons first rest =>
    rcases h with h | h | h
    · have hf : first = none := by simpa using h
      subst hf
      have hn : norm (none :: rest) = (none :: rest).map (fun _ => none) := rfl
      intro v hv
      rw [hn, List.mem_map] at hv
      obtain ⟨a, _, hav⟩ := hv
      exact hav.symm
    · have hf : first = some 0 := by simpa using h
      subst hf
      have hn : norm (some (0 : ℚ) :: rest) =
          (some (0 : ℚ) :: rest).map (fun _ => none) := by
        simp [norm]
      intro v hv
      rw [hn, List.mem_map] at hv
      obtain ⟨a, _, hav⟩ := hv
      exact hav.symm
    · simp at h

lemma norm_of_anchor {s : List (Option ℚ)} {q : ℚ}
    (hq : s.head? = some (some q)) (hq0 : q ≠ 0) :
    norm s = s.map (Option.map (fun c => c / q * 100)) := by
  cases s with
  | nil => simp at hq
  | cons first rest =>
    have : first = some q := by simpa using hq
    subst this
    simp only [norm, if_neg hq0]

/-! ## Claim theorems -/

/-- C10: on any DataFrame with no Close column, add_indicators returns a
copy equal to its input, adding no MA columns and raising no error, for
any window arguments: the Close guard keeps the rolling computation from
ever running. -/
theorem add_indicators_no_close (df : FinFrame) (maShort maLong : ℕ)
    (h : df.hasCol "Close" = false) :
    add_indicators df maShort maLong = df := by
  unfold add_indicators
  rw [if_neg (by simp [h])]

theorem add_indicators_no_close_witness :
    add_indicators ⟨[("Open", [some 1, some 2])]⟩ 7 30 = ⟨[("Open", [some 1, some 2])]⟩ :=
  add_indicators_no_close _ 7 30 (by decide)

lemma split_replace (s : List Char) :
    pySplitComma (pyReplaceSpace s) =
      splitAny (fun c => c = ',' || c = ' ') s := by
  induction s with
  | nil => rfl
  | cons c rest ih =>
    simp only [pyReplaceSpace, List.map_cons] at ih ⊢
    by_cases hsp : c = ' '
    · simp [pySplitComma, splitAny, hsp, ih]
    · by_cases hcm : c = ','
      · simp [pySplitComma, splitAny, hsp, hcm, ih]
      · simp [pySplitComma, splitAny, hsp, hcm, ih]

lemma cleanCore_eq_spec (s : List Char) : cleanCore s = specCleanTickers s := by
  unfold cleanCore specCleanTickers
  rw [split_replace, List.map_map, List.filter_map]
  have hfc : (splitAny (fun c => c = ',' || c = ' ') s).filter
        ((fun t => !t.isEmpty) ∘ (pyUpper ∘ pyStrip)) =
      (splitAny (fun c => c = ',' || c = ' ') s).filter
        (fun t => !(pyStrip t).isEmpty) := by
    apply List.filter_congr
    intro t _
    cases hst : pyStrip t <;> simp [pyUpper, hst]
  rw [hfc]
  rfl

/-- C9: clean_tickers splits its input on commas and/or spaces, trims
whitespace, uppercases every symbol, drops empty fragments, performs no
deduplication, and keeps at most the first 8 symbols in input order: it
agrees with the spec-side description specCleanTickers on every input. -/
theorem clean_tickers_follows_spec (s : String) :
    clean_tickers s = (specCleanTickers s.data).map (fun l => String.mk l) ∧
    (clean_tickers s).length ≤ 8 := by
  constructor
  · unfold clean_tickers
    rw [cleanCore_eq_spec]
  · unfold clean_tickers cleanCore
    simp [List.length_take_le]

/-- C2: for every symbol series the grouped normalize body receives, a
zero first close, a missing first close, or an empty series makes every
normalized value of that symbol undefined; the guarded definition is
total (no exception, no unguarded division by zero), and in the frame the
whole CloseNorm entry of any row of such a symbol is undefined. -/
theorem normalize_zero_anchor_undefined (df : Frame) (i : ℕ)
    (hi : i < df.base.length)
    (h : (groupCloses df.base (df.base.getD i default).ticker).head? = some none
       ∨ (groupCloses df.base (df.base.getD i default).ticker).head? = some (some 0)
       ∨ groupCloses df.base (df.base.getD i default).ticker = []) :
    (∀ v ∈ norm (groupCloses df.base (df.base.getD i default).ticker), v = none) ∧
    (normalize df).getCol "CloseNorm" = some (groupedTransform norm df.base) ∧
    (groupedTransform norm df.base).length = df.base.length ∧
    (groupedTransform norm df.base).getD i none = none := by
  have hall := norm_all_none h
  refine ⟨hall, ?_, groupedTransform_length _ _, ?_⟩
  · unfold normalize Frame.setCol Frame.getCol
    exact colGet_colSet_self _ _ _
  · rw [groupedTransform_getD hi]
    exact getD_of_forall_none _ hall

theorem normalize_zero_anchor_undefined_witness :
    (groupedTransform norm
        [⟨"A", 0, none, none, none, some 0, none⟩,
         ⟨"A", 1, none, none, none, some 45, none⟩]).getD 0 none = none :=
  (normalize_zero_anchor_undefined
    ⟨[⟨"A", 0, none, none, none, some 0, none⟩,
      ⟨"A", 1, none, none, none, some 45, none⟩], []⟩ 0 (by decide)
    (Or.inr (Or.inl (by decide)))).2.2.2

/-- C7: for every symbol series with at least one point and a defined,
non-zero first close q, normalize computes CloseNorm pointwise as
close / q * 100; the CloseNorm entry of row i is its own close so scaled,
and the first row of the symbol gets exactly 100. -/
theorem normalize_formula (df : Frame) (i : ℕ) (hi : i < df.base.length) (q : ℚ)
    (hq : (groupCloses df.base (df.base.getD i default).ticker).head? = some (some q))
    (hq0 : q ≠ 0) :
    norm (groupCloses df.base (df.base.getD i default).ticker) =
      (groupCloses df.base (df.base.getD i default).ticker).map
        (Option.map (fun c => c / q * 100)) ∧
    (normalize df).getCol "CloseNorm" = some (groupedTransform norm df.base) ∧
    (groupedTransform norm df.base).getD i none =
      ((df.base.getD i default).close).map (fun c => c / q * 100) ∧
    (posInGroup df.base i = 0 →
      (groupedTransform norm df.base).getD i none = some 100) := by
  have hfm := norm_of_anchor hq hq0
  have hpt : (fun r => decide (r.ticker = (df.base.getD i default).ticker))
      (df.base.getD i default) = true := by simp
  have hpos := filter_take_getElem
    (fun r => decide (r.ticker = (df.base.getD i default).ticker)) df.base i hi hpt
  have hgroup : (groupCloses df.base
      (df.base.getD i default).ticker)[posInGroup df.base i]? =
      some (df.base.getD i default).close := by
    unfold groupCloses posInGroup
    rw [List.getElem?_map, hpos]
    rfl
  have hentry : (groupedTransform norm df.base).getD i none =
      ((df.base.getD i default).close).map (fun c => c / q * 100) := by
    rw [groupedTransform_getD hi, hfm, List.getD_eq_getElem?_getD,
      List.getElem?_map, hgroup]
    rfl
  refine ⟨hfm, ?_, hentry, ?_⟩
  · unfold normalize Frame.setCol Frame.getCol
    exact colGet_colSet_self _ _ _
  · intro hp0
    have hclose : (df.base.getD i default).close = some q := by
      have hhead := hgroup
      rw [hp0] at hhead
      rw [List.head?_eq_getElem?, hhead] at hq
      exact Option.some_injective _ hq
    rw [hentry, hclose]
    simp [div_self hq0]

/-- C1 counterexample: the returns lambda has no degeneracy guard. On the
single-point series close = [100] it yields the defined value 0 (not the
undefined marker NaN that pandas uses for missing results), and on
close = [0, 150] it yields positive infinity, again a defined float, so
the claim that both cases yield undefined is false on this code. -/
theorem returns_no_guard_cex :
    computeReturns [⟨"A", 0, none, none, none, some 100, none⟩] =
      [("A", PFloat.fin 0)] ∧
    PFloat.fin 0 ≠ PFloat.nan ∧
    computeReturns
        [⟨"A", 0, none, none, none, some 0, none⟩,
         ⟨"A", 1, none, none, none, some 150, none⟩] =
      [("A", PFloat.posInf)] ∧
    PFloat.posInf ≠ PFloat.nan := by
  refine ⟨?_, by decide, ?_, by decide⟩
  · have h1 : sortedTickers [⟨"A", 0, none, none, none, some 100, none⟩] = ["A"] := rfl
    have h2 : groupCloses [⟨"A", 0, none, none, none, some 100, none⟩] "A" =
        [some 100] := rfl
    unfold computeReturns
    rw [h1, List.map_cons, List.map_nil, h2]
    have h3 : groupReturn [some 100] =
        (((PFloat.ofCell (some 100)).div (PFloat.ofCell (some 100))).subOne).mulHundred :=
      rfl
    rw [h3]
    norm_num [PFloat.ofCell, PFloat.div, PFloat.subOne, PFloat.mulHundred]
  · have h1 : sortedTickers
        [⟨"A", 0, none, none, none, some 0, none⟩,
         ⟨"A", 1, none, none, none, some 150, none⟩] = ["A"] := rfl
    have h2 : groupCloses
        [⟨"A", 0, none, none, none, some 0, none⟩,
         ⟨"A", 1, none, none, none, some 150, none⟩] "A" =
        [some 0, some 150] := rfl
    unfold computeReturns
    rw [h1, List.map_cons, List.map_nil, h2]
    have h3 : groupReturn [some 0, some 150] =
        (((PFloat.ofCell (some 150)).div (PFloat.ofCell (some 0))).subOne).mulHundred :=
      rfl
    rw [h3]
    norm_num [PFloat.ofCell, PFloat.div, PFloat.subOne, PFloat.mulHundred]

/-- C1 (amended): the return summary applies
(close[last] / close[first] - 1) * 100 to every symbol group with no
degeneracy guard: with a defined non-zero first close it yields the
formula value (hence 0, not undefined, on a single-point series), and
with a zero first close it yields a signed infinity or NaN by the sign of
the last close; no case raises, and computeReturns maps every sorted
ticker to its group value. -/
theorem returns_unguarded_formula (closes : List (Option ℚ)) (f l : ℚ)
    (hf : closes.head? = some (some f)) (hl : closes.getLast? = some (some l)) :
    (f ≠ 0 → groupReturn closes = PFloat.fin ((l / f - 1) * 100)) ∧
    (f = 0 → 0 < l → groupReturn closes = PFloat.posInf) ∧
    (f = 0 → l < 0 → groupReturn closes = PFloat.negInf) ∧
    (f = 0 → l = 0 → groupReturn closes = PFloat.nan) ∧
    (∀ rows : List Row, computeReturns rows =
      (sortedTickers rows).map (fun t => (t, groupReturn (groupCloses rows t)))) := by
  unfold groupReturn
  rw [hf, hl]
  refine ⟨?_, ?_, ?_, ?_, fun rows => rfl⟩
  · intro hne
    simp [PFloat.ofCell, PFloat.div, PFloat.subOne, PFloat.mulHundred, hne]
  · intro h0 hpos
    simp [PFloat.ofCell, PFloat.div, PFloat.subOne, PFloat.mulHundred, h0,
      hpos, hpos.ne.symm]
  · intro h0 hneg
    simp [PFloat.ofCell, PFloat.div, PFloat.subOne, PFloat.mulHundred, h0,
      hneg.ne, not_lt_of_gt hneg]
  · intro h0 hl0
    simp [PFloat.ofCell, PFloat.div, PFloat.subOne, PFloat.mulHundred, h0, hl0]

theorem returns_unguarded_formula_witness :
    groupReturn [some 100, some 150] = PFloat.fin ((150 / 100 - 1) * 100) :=
  (returns_unguarded_formula [some 100, some 150] 100 150 (by decide) (by decide)).1
    (by norm_num)

lemma sumDefined_isSome {l : List (Option ℚ)} (h : ∀ x ∈ l, x.isSome) :
    (sumDefined l).isSome := by
  induction l with
  | nil => simp [sumDefined]
  | cons x rest ih =>
    cases x with
    | none => simpa using h none (by simp)
    | some q =>
      have hrest := ih (fun y hy => h y (List.mem_cons_of_mem _ hy))
      simpa [sumDefined] using hrest

lemma rollingMeanAt_isSome {s : List (Option ℚ)} {w i : ℕ}
    (hdef : ∀ x ∈ s, x.isSome) :
    (rollingMeanAt s w i).isSome = decide (w ≤ i + 1) := by
  unfold rollingMeanAt
  by_cases hlt : i + 1 < w
  · rw [if_pos hlt]
    have hd : decide (w ≤ i + 1) = false := by
      rw [decide_eq_false_iff_not]
      omega
    rw [hd]
    rfl
  · rw [if_neg hlt]
    have hwin : ∀ x ∈ windowAt s w i, x.isSome := by
      intro x hx
      exact hdef x (List.mem_of_mem_take (List.mem_of_mem_drop hx))
    have hsum := sumDefined_isSome hwin
    have hd : decide (w ≤ i + 1) = true := by
      rw [decide_eq_true_iff]
      omega
    rw [hd]
    cases hs : sumDefined (windowAt s w i) with
    | none =>
      rw [hs] at hsum
      simp at hsum
    | some q => rfl

lemma range_count_tail (n w : ℕ) (hw : 1 ≤ w) :
    ((List.range n).filter (fun i => decide (w ≤ i + 1))).length = n + 1 - w := by
  induction n with
  | zero =>
    simp only [List.range_zero, List.filter_nil, List.length_nil]
    omega
  | succ m ih =>
    rw [List.range_succ, List.filter_append, List.length_append, ih]
    by_cases hm : w ≤ m + 1
    · simp only [List.filter_cons, List.filter_nil]
      rw [if_pos (by simpa using hm)]
      simp only [List.length_cons, List.length_nil]
      omega
    · simp only [List.filter_cons, List.filter_nil]
      rw [if_neg (by simpa using hm)]
      simp only [List.length_nil]
      omega

/-- C3: for every series and window w at least 1, the rolling-mean column
has exactly max 0 (len - w + 1) defined entries, all trailing: an entry
is defined precisely when its index i satisfies w ≤ i + 1, so the first
w - 1 entries are undefined, and a window larger than the series makes
the whole column undefined without error. -/
theorem sma_defined_count (s : List (Option ℚ)) (w : ℕ) (hw : 1 ≤ w)
    (hdef : ∀ x ∈ s, x.isSome) :
    ((((rollingMean w s).filter (fun o => o.isSome)).length : ℤ) =
      max 0 ((s.length : ℤ) - w + 1)) ∧
    (∀ i, i < s.length →
      ((rollingMean w s).getD i none).isSome = decide (w ≤ i + 1)) ∧
    (s.length < w → ∀ v ∈ rollingMean w s, v = none) := by
  refine ⟨?_, ?_, ?_⟩
  · unfold rollingMean
    rw [List.filter_map]
    rw [List.length_map]
    have hcg : (List.range s.length).filter
          ((fun o => o.isSome) ∘ (rollingMeanAt s w)) =
        (List.range s.length).filter (fun i => decide (w ≤ i + 1)) := by
      apply List.filter_congr
      intro i _
      exact rollingMeanAt_isSome hdef
    rw [hcg, range_count_tail _ _ hw]
    rcases le_or_lt w s.length with hle | hgt
    · rw [max_eq_right (by omega)]
      omega
    · rw [max_eq_left (by omega)]
      omega
  · intro i hi
    unfold rollingMean
    rw [List.getD_eq_getElem?_getD, List.getElem?_map, List.getElem?_range hi]
    simpa using rollingMeanAt_isSome hdef
  · intro hgt v hv
    unfold rollingMean at hv
    rw [List.mem_map] at hv
    obtain ⟨i, hir, rfl⟩ := hv
    have hi : i < s.length := List.mem_range.mp hir
    unfold rollingMeanAt
    rw [if_pos (by omega)]

theorem sma_defined_count_witness :
    (((rollingMean 2 [some 1, some 2, some 3]).filter
        (fun o => o.isSome)).length : ℤ) =
      max 0 ((([some 1, some 2, some 3] : List (Option ℚ)).length : ℤ) - 2 + 1) :=
  (sma_defined_count [some 1, some 2, some 3] 2 (by decide) (by decide)).1

theorem normalize_formula_witness :
    (groupedTransform norm
        [⟨"A", 0, none, none, none, some 50, none⟩,
         ⟨"A", 1, none, none, none, some 45, none⟩]).getD 0 none = some 100 :=
  (normalize_formula
    ⟨[⟨"A", 0, none, none, none, some 50, none⟩,
      ⟨"A", 1, none, none, none, some 45, none⟩], []⟩ 0 (by decide) 50
    (by decide) (by norm_num)).2.2.2 (by decide)

lemma add_sma_base (ws : List ℕ) (df : Frame) : (add_sma df ws).base = df.base := by
  induction ws generalizing df with
  | nil => rfl
  | cons w rest ih =>
    unfold add_sma
    rw [List.foldl_cons]
    exact ih (df.setCol ("SMA_" ++ toString w) (smaColumn df.base w))

/-- C5: invalid configuration never reaches the fetch or the computation.
An empty symbol list after cleaning stops the flow with a warning whose
value is the same for every provider, so no fetch influences it; a
non-positive requested window is refused by the sidebar widget (whose
minimum is at least 1 in every variant) and the dashboard then errors
before the fetch flow runs, again identically for every provider. -/
theorem invalid_config_rejected (rS rM rL : Int) :
    (∀ (provider : String → Except Unit (List RawRow)) (raw : String)
        (windows : List ℕ), clean_tickers raw = [] →
      mainFlow provider raw windows = Except.error "Enter at least one ticker") ∧
    (∀ minv maxv req : Int, 1 ≤ minv → req ≤ 0 →
      numberInput minv maxv req = Except.error "below widget minimum") ∧
    (rS ≤ 0 → ∀ (provider : String → Except Unit (List RawRow)) (raw : String),
      dashboard provider raw rS rM rL = Except.error "below widget minimum") := by
  refine ⟨?_, ?_, ?_⟩
  · intro provider raw windows h
    unfold mainFlow
    rw [h]
    rfl
  · intro minv maxv req h1 h2
    unfold numberInput
    rw [if_pos (by omega)]
  · intro h provider raw
    have hS : numberInput 5 100 rS = Except.error "below widget minimum" := by
      unfold numberInput
      rw [if_pos (by omega)]
    unfold dashboard
    rw [hS]
    rcases numberInput 10 250 rM with e | vM <;>
      rcases numberInput 20 400 rL with e2 | vL <;> rfl

theorem invalid_config_rejected_witness :
    mainFlow stubProvider " , " [20] = Except.error "Enter at least one ticker" ∧
    dashboard stubProvider "AAPL" 0 50 200 = Except.error "below widget minimum" :=
  ⟨(invalid_config_rejected 0 50 200).1 stubProvider " , " [20] (by decide),
   (invalid_config_rejected 0 50 200).2.2 (by omega) stubProvider "AAPL"⟩

lemma add_sma_extra (ws : List ℕ) (df : Frame)
    (hfresh : ∀ w ∈ ws, ("SMA_" ++ toString w) ∉ df.extra.map Prod.fst)
    (hnodup : (ws.map (fun w => "SMA_" ++ toString w)).Nodup) :
    (add_sma df ws).extra =
      df.extra ++ ws.map (fun w => ("SMA_" ++ toString w, smaColumn df.base w)) := by
  induction ws generalizing df with
  | nil => simp [add_sma]
  | cons w rest ih =>
    unfold add_sma
    rw [List.foldl_cons]
    have hstep : (df.setCol ("SMA_" ++ toString w) (smaColumn df.base w)).extra =
        df.extra ++ [("SMA_" ++ toString w, smaColumn df.base w)] :=
      colSet_fresh _ _ (hfresh w (by simp))
    have hbase : (df.setCol ("SMA_" ++ toString w) (smaColumn df.base w)).base =
        df.base := rfl
    have hfresh1 : ∀ v ∈ rest, ("SMA_" ++ toString v) ∉
        (df.setCol ("SMA_" ++ toString w) (smaColumn df.base w)).extra.map Prod.fst := by
      intro v hv
      rw [hstep, List.map_append, List.mem_append]
      rintro (hin | hin)
      · exact hfresh v (by simp [hv]) hin
      · have hvw : ("SMA_" ++ toString v) = ("SMA_" ++ toString w) := by simpa using hin
        have hwr : ("SMA_" ++ toString w) ∉ rest.map (fun u => "SMA_" ++ toString u) :=
          (List.nodup_cons.mp hnodup).1
        exact hwr (hvw ▸ List.mem_map.mpr ⟨v, hv, rfl⟩)
    have hnodup1 : (rest.map (fun u => "SMA_" ++ toString u)).Nodup :=
      (List.nodup_cons.mp hnodup).2
    have := ih (df.setCol ("SMA_" ++ toString w) (smaColumn df.base w)) hfresh1 hnodup1
    unfold add_sma at this
    rw [this, hstep, hbase, List.map_cons, List.append_assoc]
    rfl

lemma add_indicators_appends (df : FinFrame) (a b : ℕ)
    (hc : df.hasCol "Close" = true)
    (hfa : ("MA_" ++ toString a) ∉ df.cols.map Prod.fst)
    (hfb : ("MA_" ++ toString b) ∉ df.cols.map Prod.fst)
    (hab : ("MA_" ++ toString a) ≠ ("MA_" ++ toString b)) :
    (add_indicators df a b).cols = df.cols ++
      [("MA_" ++ toString a, rollingMean a ((df.getCol "Close").getD [])),
       ("MA_" ++ toString b, rollingMean b ((df.getCol "Close").getD []))] := by
  have hClose : "Close" ∈ df.cols.map Prod.fst := by
    simpa [FinFrame.hasCol] using hc
  have hCa : "Close" ≠ ("MA_" ++ toString a) := by
    intro hEq
    exact hfa (hEq ▸ hClose)
  have hcols1 : (df.setCol ("MA_" ++ toString a)
      (rollingMean a ((df.getCol "Close").getD []))).cols =
      df.cols ++ [("MA_" ++ toString a, rollingMean a ((df.getCol "Close").getD []))] :=
    colSet_fresh _ _ hfa
  have hCpres : (df.setCol ("MA_" ++ toString a)
      (rollingMean a ((df.getCol "Close").getD []))).getCol "Close" =
      df.getCol "Close" :=
    colGet_colSet_other _ _ hCa
  have hfb1 : ("MA_" ++ toString b) ∉ (df.setCol ("MA_" ++ toString a)
      (rollingMean a ((df.getCol "Close").getD []))).cols.map Prod.fst := by
    rw [hcols1, List.map_append, List.mem_append]
    rintro (hin | hin)
    · exact hfb hin
    · have h2 : ("MA_" ++ toString b) = ("MA_" ++ toString a) := by simpa using hin
      exact hab h2.symm
  unfold add_indicators
  rw [if_pos hc]
  show (FinFrame.setCol
      (df.setCol ("MA_" ++ toString a) (rollingMean a ((df.getCol "Close").getD [])))
      ("MA_" ++ toString b)
      (rollingMean b (((df.setCol ("MA_" ++ toString a)
        (rollingMean a ((df.getCol "Close").getD []))).getCol "Close").getD []))).cols =
    df.cols ++
      [("MA_" ++ toString a, rollingMean a ((df.getCol "Close").getD [])),
       ("MA_" ++ toString b, rollingMean b ((df.getCol "Close").getD []))]
  rw [hCpres]
  have hcols2 : (FinFrame.setCol (df.setCol ("MA_" ++ toString a)
        (rollingMean a ((df.getCol "Close").getD []))) ("MA_" ++ toString b)
        (rollingMean b ((df.getCol "Close").getD []))).cols =
      (df.setCol ("MA_" ++ toString a)
        (rollingMean a ((df.getCol "Close").getD []))).cols ++
        [("MA_" ++ toString b, rollingMean b ((df.getCol "Close").getD []))] :=
    colSet_fresh _ _ hfb1
  rw [hcols2, hcols1, List.append_assoc]
  rfl

/-- C8: every transform is a pure function of its input frame that only
adds columns: add_sma and normalize keep the base rows (row count and
order) and every previously assigned column, appending their new columns
at the end; add_indicators keeps every existing column and appends its
two MA columns; every appended column has exactly one entry per row. -/
theorem transforms_preserve_and_extend (df : Frame) (ws : List ℕ)
    (fdf : FinFrame) (a b : ℕ)
    (hfresh : ∀ w ∈ ws, ("SMA_" ++ toString w) ∉ df.extra.map Prod.fst)
    (hnodup : (ws.map (fun w => "SMA_" ++ toString w)).Nodup)
    (hCN : "CloseNorm" ∉ df.extra.map Prod.fst)
    (hc : fdf.hasCol "Close" = true)
    (hfa : ("MA_" ++ toString a) ∉ fdf.cols.map Prod.fst)
    (hfb : ("MA_" ++ toString b) ∉ fdf.cols.map Prod.fst)
    (hab : ("MA_" ++ toString a) ≠ ("MA_" ++ toString b)) :
    ((add_sma df ws).base = df.base ∧
     (add_sma df ws).extra = df.extra ++
       ws.map (fun w => ("SMA_" ++ toString w, smaColumn df.base w)) ∧
     ∀ w ∈ ws, (smaColumn df.base w).length = df.base.length) ∧
    ((normalize df).base = df.base ∧
     (normalize df).extra = df.extra ++
       [("CloseNorm", groupedTransform norm df.base)] ∧
     (groupedTransform norm df.base).length = df.base.length) ∧
    ((add_indicators fdf a b).cols = fdf.cols ++
       [("MA_" ++ toString a, rollingMean a ((fdf.getCol "Close").getD [])),
        ("MA_" ++ toString b, rollingMean b ((fdf.getCol "Close").getD []))] ∧
     (rollingMean a ((fdf.getCol "Close").getD [])).length =
       ((fdf.getCol "Close").getD []).length ∧
     (rollingMean b ((fdf.getCol "Close").getD [])).length =
       ((fdf.getCol "Close").getD []).length) := by
  refine ⟨⟨add_sma_base ws df, add_sma_extra ws df hfresh hnodup,
      fun w _ => smaColumn_length df.base w⟩, ⟨rfl, ?_, ?_⟩,
    add_indicators_appends fdf a b hc hfa hfb hab,
    rollingMean_length _ _, rollingMean_length _ _⟩
  · exact colSet_fresh _ _ hCN
  · exact groupedTransform_length _ _

theorem transforms_preserve_and_extend_witness :
    (add_sma ⟨[⟨"A", 0, none, none, none, some 5, none⟩], []⟩ [2]).base =
      [⟨"A", 0, none, none, none, some 5, none⟩] ∧
    (add_indicators ⟨[("Close", [some 1, some 2])]⟩ 7 30).cols =
      [("Close", [some 1, some 2])] ++
        [("MA_7", rollingMean 7 (((⟨[("Close", [some 1, some 2])]⟩ :
            FinFrame).getCol "Close").getD [])),
         ("MA_30", rollingMean 30 (((⟨[("Close", [some 1, some 2])]⟩ :
            FinFrame).getCol "Close").getD []))] :=
  ⟨(transforms_preserve_and_extend ⟨[⟨"A", 0, none, none, none, some 5, none⟩], []⟩
      [2] ⟨[("Close", [some 1, some 2])]⟩ 7 30 (by decide) (by decide) (by decide)
      (by decide) (by decide) (by decide) (by decide)).1.1,
   (transforms_preserve_and_extend ⟨[⟨"A", 0, none, none, none, some 5, none⟩], []⟩
      [2] ⟨[("Close", [some 1, some 2])]⟩ 7 30 (by decide) (by decide) (by decide)
      (by decide) (by decide) (by decide) (by decide)).2.2.1⟩

lemma smaColumn_uniform (A : List Row) (a : String) (w : ℕ)
    (hA : ∀ r ∈ A, r.ticker = a) :
    smaColumn A w = rollingMean w (A.map (fun r => r.close)) := by
  have hlen : (rollingMean w (A.map (fun r => r.close))).length = A.length := by
    rw [rollingMean_length, List.length_map]
  unfold smaColumn groupedTransform
  rw [← map_getD_range (none : Option ℚ) hlen]
  apply List.map_congr_left
  intro i hi
  have hi2 : i < A.length := List.mem_range.mp hi
  have hmem : A.getD i default ∈ A := by
    rw [List.getD_eq_getElem _ _ hi2]
    exact List.getElem_mem hi2
  have ht : (A.getD i default).ticker = a := hA _ hmem
  have hgc : groupCloses A ((A.getD i default).ticker) =
      A.map (fun r => r.close) := by
    unfold groupCloses
    rw [ht]
    congr 1
    rw [List.filter_eq_self]
    intro r hr
    simpa using hA r hr
  have hpos : posInGroup A i = i := by
    unfold posInGroup
    have hft : (A.take i).filter
        (fun r => decide (r.ticker = (A.getD i default).ticker)) = A.take i := by
      rw [List.filter_eq_self]
      intro r hr
      rw [ht, hA r (List.mem_of_mem_take hr)]
      simp
    rw [hft, List.length_take]
    exact min_eq_left (le_of_lt hi2)
  rw [hgc, hpos]

lemma smaColumn_append (A B : List Row) (a b : String) (w : ℕ)
    (hA : ∀ r ∈ A, r.ticker = a) (hB : ∀ r ∈ B, r.ticker = b) (hab : a ≠ b) :
    smaColumn (A ++ B) w = smaColumn A w ++ smaColumn B w := by
  rw [smaColumn_uniform A a w hA, smaColumn_uniform B b w hB]
  have hlenA : (rollingMean w (A.map (fun r => r.close))).length = A.length := by
    rw [rollingMean_length, List.length_map]
  have hlenB : (rollingMean w (B.map (fun r => r.close))).length = B.length := by
    rw [rollingMean_length, List.length_map]
  unfold smaColumn groupedTransform
  rw [List.length_append, List.range_add, List.map_append, List.map_map]
  congr 1
  · rw [← map_getD_range (none : Option ℚ) hlenA]
    apply List.map_congr_left
    intro i hi
    have hi2 : i < A.length := List.mem_range.mp hi
    have hgd : (A ++ B).getD i default = A.getD i default :=
      List.getD_append _ _ _ _ hi2
    have hmem : A.getD i default ∈ A := by
      rw [List.getD_eq_getElem _ _ hi2]
      exact List.getElem_mem hi2
    have ht : ((A ++ B).getD i default).ticker = a := by
      rw [hgd]
      exact hA _ hmem
    have hgc : groupCloses (A ++ B) (((A ++ B).getD i default).ticker) =
        A.map (fun r => r.close) := by
      unfold groupCloses
      rw [ht, List.filter_append]
      have h1 : A.filter (fun r => decide (r.ticker = a)) = A := by
        rw [List.filter_eq_self]
        intro r hr
        simpa using hA r hr
      have h2 : B.filter (fun r => decide (r.ticker = a)) = [] := by
        rw [List.filter_eq_nil_iff]
        intro r hr
        simp [hB r hr, hab.symm]
      rw [h1, h2, List.append_nil]
    have hpos : posInGroup (A ++ B) i = i := by
      unfold posInGroup
      rw [List.take_append_of_le_length (le_of_lt hi2)]
      have hft : (A.take i).filter
          (fun r => decide (r.ticker = ((A ++ B).getD i default).ticker)) =
          A.take i := by
        rw [List.filter_eq_self]
        intro r hr
        rw [ht, hA r (List.mem_of_mem_take hr)]
        simp
      rw [hft, List.length_take]
      exact min_eq_left (le_of_lt hi2)
    rw [hgc, hpos]
  · rw [← map_getD_range (none : Option ℚ) hlenB]
    apply List.map_congr_left
    intro k hk
    have hk2 : k < B.length := List.mem_range.mp hk
    simp only [Function.comp]
    have hgd : (A ++ B).getD (A.length + k) default = B.getD k default := by
      rw [List.getD_append_right _ _ _ _ (Nat.le_add_right _ _),
        Nat.add_sub_cancel_left]
    have hmem : B.getD k default ∈ B := by
      rw [List.getD_eq_getElem _ _ hk2]
      exact List.getElem_mem hk2
    have ht : ((A ++ B).getD (A.length + k) default).ticker = b := by
      rw [hgd]
      exact hB _ hmem
    have hgc : groupCloses (A ++ B) (((A ++ B).getD (A.length + k) default).ticker) =
        B.map (fun r => r.close) := by
      unfold groupCloses
      rw [ht, List.filter_append]
      have h1 : A.filter (fun r => decide (r.ticker = b)) = [] := by
        rw [List.filter_eq_nil_iff]
        intro r hr
        simp [hA r hr, hab]
      have h2 : B.filter (fun r => decide (r.ticker = b)) = B := by
        rw [List.filter_eq_self]
        intro r hr
        simpa using hB r hr
      rw [h1, h2, List.nil_append]
    have hpos : posInGroup (A ++ B) (A.length + k) = k := by
      unfold posInGroup
      rw [List.take_append, List.filter_append]
      have h1 : A.filter
          (fun r => decide (r.ticker = ((A ++ B).getD (A.length + k) default).ticker)) =
          [] := by
        rw [List.filter_eq_nil_iff]
        intro r hr
        rw [ht, hA r hr]
        simp [hab]
      have h2 : (B.take k).filter
          (fun r => decide (r.ticker = ((A ++ B).getD (A.length + k) default).ticker)) =
          B.take k := by
        rw [List.filter_eq_self]
        intro r hr
        rw [ht, hB r (List.mem_of_mem_take hr)]
        simp
      rw [h1, h2, List.nil_append, List.length_take]
      exact min_eq_left (le_of_lt hk2)
    rw [hgc, hpos]

/-- C4: on a batch table made of several symbols, the SMA transform is
groupwise: each uniform-ticker block of the batch gets exactly the plain
rolling mean of its own closes (the trailing-w arithmetic mean, current
point included), so one symbol's window never sees another symbol's
points and the batch column is the concatenation of the per-symbol runs;
add_sma stores that column under its SMA name. -/
theorem sma_groupwise_independent (A B : List Row) (a b : String) (w : ℕ)
    (hA : ∀ r ∈ A, r.ticker = a) (hB : ∀ r ∈ B, r.ticker = b) (hab : a ≠ b) :
    smaColumn (A ++ B) w = smaColumn A w ++ smaColumn B w ∧
    smaColumn A w = rollingMean w (A.map (fun r => r.close)) ∧
    smaColumn B w = rollingMean w (B.map (fun r => r.close)) ∧
    (add_sma ⟨A ++ B, []⟩ [w]).getCol ("SMA_" ++ toString w) =
      some (smaColumn (A ++ B) w) := by
  refine ⟨smaColumn_append A B a b w hA hB hab, smaColumn_uniform A a w hA,
    smaColumn_uniform B b w hB, ?_⟩
  show colGet (colSet ([] : List (String × List (Option ℚ)))
      ("SMA_" ++ toString w) (smaColumn (A ++ B) w)) ("SMA_" ++ toString w) =
    some (smaColumn (A ++ B) w)
  exact colGet_colSet_self _ _ _

theorem sma_groupwise_independent_witness :
    smaColumn
        ([⟨"AAPL", 0, none, none, none, some 100, none⟩,
          ⟨"AAPL", 1, none, none, none, some 105, none⟩] ++
         [⟨"MSFT", 0, none, none, none, some 50, none⟩]) 2 =
      smaColumn
        [⟨"AAPL", 0, none, none, none, some 100, none⟩,
         ⟨"AAPL", 1, none, none, none, some 105, none⟩] 2 ++
      smaColumn [⟨"MSFT", 0, none, none, none, some 50, none⟩] 2 :=
  (sma_groupwise_independent
    [⟨"AAPL", 0, none, none, none, some 100, none⟩,
     ⟨"AAPL", 1, none, none, none, some 105, none⟩]
    [⟨"MSFT", 0, none, none, none, some 50, none⟩]
    "AAPL" "MSFT" 2 (by decide) (by decide) (by decide)).1

lemma fetched_missing (provider : String → Except Unit (List RawRow))
    (tickers : List String) :
    ((tickers.map (fun t => (t, fetch_history provider t))).filter
        (fun p => p.2.isEmpty)).map Prod.fst =
      tickers.filter (fun t => (fetch_history provider t).isEmpty) := by
  rw [List.filter_map, List.map_map,
    show (Prod.fst ∘ fun t => (t, fetch_history provider t)) = id from rfl,
    List.map_id]
  rfl

lemma fetched_dfs (provider : String → Except Unit (List RawRow))
    (tickers : List String) :
    ((tickers.map (fun t => (t, fetch_history provider t))).filter
        (fun p => !p.2.isEmpty)).map Prod.snd =
      (tickers.filter (fun t => !(fetch_history provider t).isEmpty)).map
        (fun t => fetch_history provider t) := by
  rw [List.filter_map, List.map_map]
  rfl

/-- C6: fetch_history is total and returns an empty series on a provider
exception or an empty provider result; in the main flow, failed symbols
are collected into the missing report while the other symbols still
produce the full pipeline table, and the request errors out only when
every symbol fetched empty. -/
theorem fetch_failures_isolated (provider : String → Except Unit (List RawRow))
    (raw : String) (windows : List ℕ) (hne : clean_tickers raw ≠ []) :
    (∀ t u, provider t = Except.error u → fetch_history provider t = []) ∧
    (∀ t, provider t = Except.ok [] → fetch_history provider t = []) ∧
    ((∀ t ∈ clean_tickers raw, fetch_history provider t = []) →
      mainFlow provider raw windows = Except.error "No valid tickers fetched") ∧
    (∀ t0 ∈ clean_tickers raw, fetch_history provider t0 ≠ [] →
      mainFlow provider raw windows = Except.ok
        ⟨add_sma ⟨sortRows (((clean_tickers raw).filter
              (fun t => !(fetch_history provider t).isEmpty)).map
            (fun t => fetch_history provider t)).flatten, []⟩ windows,
         (clean_tickers raw).filter
           (fun t => (fetch_history provider t).isEmpty)⟩ ∧
      (∀ t ∈ clean_tickers raw, fetch_history provider t ≠ [] →
        ∀ r ∈ fetch_history provider t,
          r ∈ (add_sma ⟨sortRows (((clean_tickers raw).filter
                (fun t => !(fetch_history provider t).isEmpty)).map
              (fun t => fetch_history provider t)).flatten, []⟩ windows).base)) := by
  have htick : (clean_tickers raw).isEmpty = false := by
    cases h : clean_tickers raw with
    | nil => exact absurd h hne
    | cons x xs => rfl
  refine ⟨?_, ?_, ?_, ?_⟩
  · intro t u h
    unfold fetch_history
    rw [h]
  · intro t h
    unfold fetch_history
    rw [h]
    rfl
  · intro hall
    have hdfs : ((clean_tickers raw).map
          (fun t => (t, fetch_history provider t))).filter
        (fun p => !p.2.isEmpty) = [] := by
      rw [List.filter_eq_nil_iff]
      intro p hp
      rw [List.mem_map] at hp
      obtain ⟨t, ht, rfl⟩ := hp
      simp [hall t ht]
    simp only [mainFlow, htick, Bool.false_eq_true, if_false, hdfs, List.map_nil,
      List.isEmpty_nil, if_true]
  · intro t0 ht0 hne0
    have hfil : t0 ∈ (clean_tickers raw).filter
        (fun t => !(fetch_history provider t).isEmpty) := by
      rw [List.mem_filter]
      exact ⟨ht0, by simp [hne0]⟩
    have hdfsEmpty : (((clean_tickers raw).filter
          (fun t => !(fetch_history provider t).isEmpty)).map
        (fun t => fetch_history provider t)).isEmpty = false := by
      cases hx : ((clean_tickers raw).filter
          (fun t => !(fetch_history provider t).isEmpty)).map
          (fun t => fetch_history provider t) with
      | nil =>
        rw [List.map_eq_nil_iff] at hx
        exact absurd (hx ▸ hfil) (List.not_mem_nil t0)
      | cons x xs => rfl
    constructor
    · simp only [mainFlow, htick, Bool.false_eq_true, if_false]
      rw [fetched_dfs, fetched_missing, hdfsEmpty]
      simp only [Bool.false_eq_true, if_false]
    · intro t ht htne r hr
      rw [add_sma_base]
      show r ∈ sortRows _
      unfold sortRows
      rw [(List.perm_insertionSort _ _).mem_iff, List.mem_flatten]
      refine ⟨fetch_history provider t, List.mem_map.mpr ⟨t, ?_, rfl⟩, hr⟩
      rw [List.mem_filter]
      exact ⟨ht, by simp [htne]⟩

theorem fetch_failures_isolated_witness :
    mainFlow stubProvider "aapl zzzz" [2] = Except.ok
      ⟨add_sma ⟨sortRows (((clean_tickers "aapl zzzz").filter
            (fun t => !(fetch_history stubProvider t).isEmpty)).map
          (fun t => fetch_history stubProvider t)).flatten, []⟩ [2],
       (clean_tickers "aapl zzzz").filter
         (fun t => (fetch_history stubProvider t).isEmpty)⟩ :=
  ((fetch_failures_isolated stubProvider "aapl zzzz" [2] (by decide)).2.2.2 "AAPL"
    (by decide) (by decide)).1

end FinDash
